import Mathlib

/-!
Shallow embedding of the `serde-json-exercise` crate (a streaming JSON
serializer/deserializer) and proofs about its specification claims.

The deserializer (`src/de.rs`) is embedded as explicit state passing over a
byte-list input: the `Deserializer` struct's `BufReader` becomes the remaining
byte list, and its one-byte pushback register `hold` is kept verbatim.  The
serializer (`src/ser.rs`) is embedded as state passing over an output string
plus the single pending-first-element flag `start`.  Machine integers are
modelled as `Nat`/`Int` with explicit range checks mirroring Rust's
`FromStr` behaviour.  Rust panics (`unwrap` on `None`) and the one reachable
infinite loop are modelled by dedicated result constructors.
-/

namespace SerdeJsonExercise


/-- Rust `char::is_whitespace` restricted to code points below 0x100, which is
all the deserializer ever applies it to (`buf[0] as char`): the Unicode
White_Space code points below 0x100 are U+0009..U+000D, U+0020, U+0085 and
U+00A0. -/
def byteIsWhitespace (b : Nat) : Bool :=
  b == 9 || b == 10 || b == 11 || b == 12 || b == 13 || b == 32 || b == 0x85 || b == 0xA0

/-- Rust `u8::is_ascii_digit`. -/
def isDigitByte (b : Nat) : Bool := 48 ≤ b && b ≤ 57

/-- UTF-8 encoding of one scalar value, as Rust's `str::as_bytes` produces it. -/
def utf8EncodeChar (c : Char) : List Nat :=
  let n := c.toNat
  if n < 0x80 then [n]
  else if n < 0x800 then [0xC0 + n / 64, 0x80 + n % 64]
  else if n < 0x10000 then [0xE0 + n / 4096, 0x80 + (n / 64) % 64, 0x80 + n % 64]
  else [0xF0 + n / 262144, 0x80 + (n / 4096) % 64, 0x80 + (n / 64) % 64, 0x80 + n % 64]

/-- The byte stream of a Rust `&str` (`str::as_bytes`). -/
def strToBytes (s : String) : List Nat := s.data.flatMap utf8EncodeChar

/-- Is `b` a UTF-8 continuation byte (0x80..0xBF)? -/
def isCont (b : Nat) : Bool := 0x80 ≤ b && b ≤ 0xBF

/-- Number of bytes of a UTF-8 sequence with lead byte `b` (0: invalid lead). -/
def utf8SeqLen (b : Nat) : Nat :=
  if b < 0x80 then 1
  else if 0xC2 ≤ b && b ≤ 0xDF then 2
  else if 0xE0 ≤ b && b ≤ 0xEF then 3
  else if 0xF0 ≤ b && b ≤ 0xF4 then 4
  else 0

/-- Are `tail` valid continuation bytes for lead `b`?  The E0/ED and F0/F4
second-byte restrictions exclude overlong forms, surrogates and values above
U+10FFFF, exactly as Rust's `String::from_utf8` validation does. -/
def utf8TailOk (b : Nat) (tail : List Nat) : Bool :=
  match tail with
  | [] => true
  | b2 :: more =>
    let lo2 := if b = 0xE0 then 0xA0 else if b = 0xF0 then 0x90 else 0x80
    let hi2 := if b = 0xED then 0x9F else if b = 0xF4 then 0x8F else 0xBF
    (lo2 ≤ b2 && b2 ≤ hi2) && more.all isCont

/-- The code point encoded by lead byte `b` and continuation bytes `tail`. -/
def utf8Assemble (b : Nat) (tail : List Nat) : Nat :=
  match tail with
  | [] => b
  | [b2] => (b - 0xC0) * 64 + (b2 - 0x80)
  | [b2, b3] => (b - 0xE0) * 4096 + (b2 - 0x80) * 64 + (b3 - 0x80)
  | [b2, b3, b4] => (b - 0xF0) * 262144 + (b2 - 0x80) * 4096 + (b3 - 0x80) * 64 + (b4 - 0x80)
  | _ => 0

/-- UTF-8 validation and decoding, as `String::from_utf8` performs it:
`none` models `Err(FromUtf8Error)`.  One scalar per iteration; the loop
consumes at least one byte per iteration, so the fuel supplied by
`utf8Decode` below can never run out. -/
def utf8DecodeLoop : Nat → List Nat → Option (List Char)
  | 0, _ => none
  | _, [] => some []
  | fuel + 1, b :: rest =>
    let n := utf8SeqLen b
    if n = 0 then none
    else if rest.length + 1 < n then none
    else if utf8TailOk b (rest.take (n - 1)) then
      (utf8DecodeLoop fuel (rest.drop (n - 1))).map
        (fun cs => Char.ofNat (utf8Assemble b (rest.take (n - 1))) :: cs)
    else none

/-- `String::from_utf8` over a whole byte list. -/
def utf8Decode (l : List Nat) : Option (List Char) := utf8DecodeLoop (l.length + 1) l

/-- Kinds of Rust `std::num::ParseIntError` (`IntErrorKind`), as far as the
crate can produce them. -/
inductive IntErrKind where
  | Empty
  | InvalidDigit
  | PosOverflow
  | NegOverflow
deriving DecidableEq, Repr

/-- The error enum of `src/error.rs`, constructor for constructor.  Notes:
`Io` wraps `std::io::Error`; reading from a byte slice (the `from_str` /
`from_bytes` entry points) can only fail with `UnexpectedEof`, so the payload
is dropped and the constructor is named `IoEof`.  `ParseInt` wraps
`ParseIntError`, modelled by its kind.  `Utf8` wraps `FromUtf8Error` (payload
dropped).  The enum has a `TrailingComma` variant that no code constructs, and
has no `ParseFloat` variant at all. -/
inductive Error where
  | IoEof
  | KeyNotString
  | Unclosed (c : Char)
  | Utf8
  | Unexpected (found : String) (expected : Option String)
  | TrailingComma
  | InvalidEscape
  | ParseInt (k : IntErrKind)
  | Message (s : String)
deriving DecidableEq, Repr

/-- The deserializer state: `input` is the not-yet-consumed byte stream behind
the `BufReader`, `hold` is the one-byte pushback register. -/
structure Deserializer where
  input : List Nat
  hold : Option Nat
deriving DecidableEq, Repr

/-- Outcome of a deserializer step.  `ok` carries the produced value and the
successor state; `err` is an `Err(Error)` return; `panicked` models a Rust
panic (reachable through `unwrap` in `unescape`); `diverged` models an
infinite loop (reachable in `parse_string` at end of input). -/
inductive DRes (α : Type) where
  | ok : α → Deserializer → DRes α
  | err : Error → DRes α
  | panicked : DRes α
  | diverged : DRes α
deriving DecidableEq, Repr

/-- Sequencing of deserializer steps: Rust's `?` operator plus state passing.
Panics and divergence absorb everything downstream. -/
def DRes.bind {α β : Type} (r : DRes α) (f : α → Deserializer → DRes β) : DRes β :=
  match r with
  | .ok a d => f a d
  | .err e => .err e
  | .panicked => .panicked
  | .diverged => .diverged

/-- Result of a whole `from_str` / `from_bytes` call (final state dropped). -/
inductive RRes (α : Type) where
  | ok : α → RRes α
  | err : Error → RRes α
  | panicked : RRes α
  | diverged : RRes α
deriving DecidableEq, Repr

/-- Forget the final deserializer state, as `from_str` does on return. -/
def DRes.toR {α : Type} : DRes α → RRes α
  | .ok a _ => .ok a
  | .err e => .err e
  | .panicked => .panicked
  | .diverged => .diverged

/-- A byte viewed as a `char` (`buf[0] as char`): code point equal to the byte. -/
def byteToChar (b : Nat) : Char := Char.ofNat b

/-- `Deserializer::next`: return the held byte if present, otherwise read
bytes, skipping whitespace, until a non-whitespace byte or end of input. -/
def Deserializer.next (d : Deserializer) : DRes Nat :=
  match d.hold with
  | some h => .ok h { d with hold := none }
  | none =>
    match d.input.dropWhile byteIsWhitespace with
    | [] => .err .IoEof
    | b :: rest => .ok b { input := rest, hold := none }

/-- `Deserializer::peek`: like `next` but parks the byte in `hold`. -/
def Deserializer.peek (d : Deserializer) : DRes Nat :=
  match d.hold with
  | some h => .ok h d
  | none =>
    match d.input.dropWhile byteIsWhitespace with
    | [] => .err .IoEof
    | b :: rest => .ok b { input := rest, hold := some b }

/-- `Deserializer::expect_next`: consume one byte and demand it equals `c`. -/
def Deserializer.expect_next (d : Deserializer) (c : Char) : DRes Unit :=
  d.next.bind fun b d2 =>
    if byteToChar b = c then .ok () d2
    else .err (.Unexpected (String.mk [byteToChar b]) (some (String.mk [c])))

/-- `get_integer`'s `finish`: `String::from_utf8(buf)` then return. -/
def giFinish (buf : List Nat) (d : Deserializer) : DRes String :=
  match utf8Decode buf with
  | some cs => .ok (String.mk cs) d
  | none => .err .Utf8

/-- `Deserializer::get_integer`'s loop: `peek`; an `UnexpectedEof` breaks the
loop, a non-digit breaks the loop, a digit is consumed by `next` and pushed.
`peek`/`next` are unfolded (the held-byte and fresh-read cases), and the
recursion carries fuel so it is structural; every iteration that recurses
consumes at least one byte of state, so the fuel chosen by `get_integer`
below can never run out (`diverged` is unreachable from it). -/
def getIntegerLoop : Nat → List Nat → Deserializer → DRes String
  | 0, _, _ => .diverged
  | fuel + 1, buf, d =>
    match d.hold with
    | some h =>
      if isDigitByte h then
        -- peek returned the held byte; `next` consumes it
        getIntegerLoop fuel (buf ++ [h]) { d with hold := none }
      else giFinish buf d
    | none =>
      match d.input.dropWhile byteIsWhitespace with
      | [] => giFinish buf { input := [], hold := none }  -- peek hit end of input: break
      | b :: rest =>
        if isDigitByte b then
          -- peek read `b` (whitespace skipped) and held it; `next` consumes it
          getIntegerLoop fuel (buf ++ [b]) { input := rest, hold := none }
        else giFinish buf { input := rest, hold := some b }

/-- `Deserializer::get_integer`: the loop with enough fuel for the whole
remaining state (one unit per consumable byte, plus the held byte, plus the
final non-consuming iteration). -/
def Deserializer.get_integer (buf : List Nat) (d : Deserializer) : DRes String :=
  getIntegerLoop (d.input.length + 2) buf d

/-- Value of a digit string (most significant first). -/
def digitsVal (cs : List Char) : Nat := cs.foldl (fun a c => a * 10 + (c.toNat - 48)) 0

/-- Rust `u64::from_str` (and the narrower unsigned widths, via `max`):
empty input is `Empty`; a leading `+` is allowed; a leading `-` or any
non-digit is `InvalidDigit`; a value above `max` is `PosOverflow`. -/
def rustParseUInt (max : Nat) (cs : List Char) : Except IntErrKind Nat :=
  match cs with
  | [] => .error .Empty
  | c :: rest =>
    let ds := if c = '+' then rest else c :: rest
    if ds.isEmpty then .error .InvalidDigit
    else if ds.all Char.isDigit then
      if digitsVal ds ≤ max then .ok (digitsVal ds) else .error .PosOverflow
    else .error .InvalidDigit

/-- Rust `i64::from_str` (and narrower signed widths, via `lo`/`hi`). -/
def rustParseInt (lo hi : Int) (cs : List Char) : Except IntErrKind Int :=
  match cs with
  | [] => .error .Empty
  | c :: rest =>
    let neg := c = '-'
    let ds := if c = '+' || c = '-' then rest else c :: rest
    if ds.isEmpty then .error .InvalidDigit
    else if ds.all Char.isDigit then
      let v : Int := if neg then -(digitsVal ds : Int) else (digitsVal ds : Int)
      if v < lo then .error .NegOverflow
      else if hi < v then .error .PosOverflow
      else .ok v
    else .error .InvalidDigit

/-- `Deserializer::parse_uint` instantiated at an unsigned width with maximum
value `max` (`u8` ↦ 255, `u64` ↦ 2^64 - 1). -/
def Deserializer.parse_uint (max : Nat) (d : Deserializer) : DRes Nat :=
  (d.get_integer []).bind fun s d2 =>
    match rustParseUInt max s.data with
    | .ok n => .ok n d2
    | .error k => .err (.ParseInt k)

/-- `Deserializer::parse_int` instantiated at a signed width `[lo, hi]`. -/
def Deserializer.parse_int (lo hi : Int) (d : Deserializer) : DRes Int :=
  d.peek.bind fun b d1 =>
    (if b = 45 then d1.next.bind fun h d2 => .ok [h] d2 else .ok [] d1).bind fun buf d2 =>
      (d2.get_integer buf).bind fun s d3 =>
        match rustParseInt lo hi s.data with
        | .ok n => .ok n d3
        | .error k => .err (.ParseInt k)

/-- The text-collection part of `Deserializer::parse_float`: optional `-`,
integer digits, optional `.` plus digits, optional `e`/`E` plus digits
(no sign accepted after the exponent letter).  The final
`Ok(string.parse()?)` cannot be embedded: `Error` has no `ParseFloat`
variant and no `From<ParseFloatError>` conversion exists for `?` to use, so
the function is embedded up to the text it would hand to `f64::from_str`. -/
def Deserializer.parse_float_scan (d : Deserializer) : DRes String :=
  d.peek.bind fun b d1 =>
    (if b = 45 then d1.next.bind fun h d2 => .ok [h] d2 else .ok [] d1).bind fun buf d2 =>
      (d2.get_integer buf).bind fun s1 d3 =>
        d3.peek.bind fun p d4 =>
          (if p = 46 then
            d4.next.bind fun h d5 => (d5.get_integer [h]).bind fun s2 d6 => .ok (s1 ++ s2) d6
          else .ok s1 d4).bind fun text1 d5 =>
            d5.peek.bind fun p2 d6 =>
              if byteToChar p2 = 'e' || byteToChar p2 = 'E' then
                d6.next.bind fun h d7 =>
                  (d7.get_integer [h]).bind fun s3 d8 => .ok (text1 ++ s3) d8
              else .ok text1 d6

/-- Where `Deserializer::parse_number` routes the scanned text. -/
inductive NumberRoute where
  | i64Route (text : String)
  | u64Route (text : String)
  | f64Route (text : String)
deriving DecidableEq, Repr

/-- The exponent step of `Deserializer::parse_number`: peek; on `e`/`E`
consume it and collect the exponent digit run (the scan accepts no sign
here), marking the number as a float; then classify: `visit_f64` when a `.`
or exponent was seen, else `visit_i64` when a sign was seen, else
`visit_u64`. -/
def Deserializer.pn_exp (text1 : String) (float1 : Bool) (signed : Bool) (d : Deserializer) :
    DRes NumberRoute :=
  d.peek.bind fun p2 d6 =>
    (if byteToChar p2 = 'e' || byteToChar p2 = 'E' then
      d6.next.bind fun h d7 =>
        (d7.get_integer [h]).bind fun s3 d8 => .ok (text1 ++ s3, true) d8
    else .ok (text1, float1) d6).bind fun tf d7 =>
      .ok (if tf.2 then .f64Route tf.1 else if signed then .i64Route tf.1 else .u64Route tf.1) d7

/-- The fraction step of `Deserializer::parse_number`: peek; on `.` consume
it and collect the fractional digit run, marking the number as a float. -/
def Deserializer.pn_frac (s1 : String) (signed : Bool) (d : Deserializer) : DRes NumberRoute :=
  d.peek.bind fun p d4 =>
    (if p = 46 then
      d4.next.bind fun h d5 =>
        (d5.get_integer [h]).bind fun s2 d6 => .ok (s1 ++ s2, true) d6
    else .ok (s1, false) d4).bind fun ts d5 =>
      Deserializer.pn_exp ts.1 ts.2 signed d5

/-- The scan-and-classify part of `Deserializer::parse_number`: optional
leading `-` (setting the `signed` flag), integer digit run, then the
fraction and exponent steps; the result is which 64-bit parse the collected
text is routed to (`visit_i64` / `visit_u64` / `visit_f64`). -/
def Deserializer.parse_number_route (d : Deserializer) : DRes NumberRoute :=
  d.peek.bind fun b d1 =>
    (if b = 45 then d1.next.bind fun h d2 => .ok ([h], true) d2
     else .ok ([], false) d1).bind fun bs d2 =>
      (d2.get_integer bs.1).bind fun s1 d3 => Deserializer.pn_frac s1 bs.2 d3

/-- `read_exact` into an `n`-byte buffer: `none` is `UnexpectedEof`. -/
def readExact (n : Nat) (l : List Nat) : Option (List Nat × List Nat) :=
  if l.length < n then none else some (l.take n, l.drop n)

/-- The bytes of `b"null"`. -/
def nullBytes : List Nat := [110, 117, 108, 108]

/-- `Deserializer::parse_null`: if a byte is held it becomes `buf[0]` and three
raw bytes are read, otherwise four raw bytes are read; no whitespace is
skipped and the held byte is *not* cleared (both faithful to the source). -/
def Deserializer.parse_null (d : Deserializer) : DRes Unit :=
  let r : Option (List Nat × Deserializer) :=
    match d.hold with
    | some h =>
      match readExact 3 d.input with
      | some (tk, rest) => some (h :: tk, { input := rest, hold := some h })
      | none => none
    | none =>
      match readExact 4 d.input with
      | some (tk, rest) => some (tk, { input := rest, hold := none })
      | none => none
  match r with
  | none => .err .IoEof
  | some (buf, d2) =>
    if buf = nullBytes then .ok () d2
    else
      match utf8Decode buf with
      | some cs => .err (.Unexpected (String.mk cs) (some "null"))
      | none => .err .Utf8

/-- `Deserializer::deserialize_bool`: peek one byte; on `t` read three more raw
bytes and demand `true`, on `f` read four more raw bytes and demand `false`.
The held byte parked by `peek` is *not* cleared (faithful to the source). -/
def Deserializer.deserialize_bool (d : Deserializer) : DRes Bool :=
  d.peek.bind fun b d2 =>
    if byteToChar b = 't' then
      match readExact 3 d2.input with
      | none => .err .IoEof
      | some (tk, rest) =>
        let buf := 116 :: tk
        let d3 : Deserializer := { input := rest, hold := d2.hold }
        if buf = [116, 114, 117, 101] then .ok true d3
        else
          match utf8Decode buf with
          | some cs => .err (.Unexpected (String.mk cs) (some "true"))
          | none => .err .Utf8
    else if byteToChar b = 'f' then
      match readExact 4 d2.input with
      | none => .err .IoEof
      | some (tk, rest) =>
        let buf := 102 :: tk
        let d3 : Deserializer := { input := rest, hold := d2.hold }
        if buf = [102, 97, 108, 115, 101] then .ok false d3
        else
          match utf8Decode buf with
          | some cs => .err (.Unexpected (String.mk cs) (some "false"))
          | none => .err .Utf8
    else .err (.Unexpected (String.mk [byteToChar b]) (some "true or false"))

/-- `BufRead::read_until(delim)`: read bytes up to and including the first
`delim`, or to end of input if there is none.  Returns the bytes read and the
remaining stream. -/
def read_until (delim : Nat) : List Nat → List Nat × List Nat
  | [] => ([], [])
  | b :: rest =>
    if b = delim then ([b], rest)
    else
      let r := read_until delim rest
      (b :: r.1, r.2)

/-- The hex value of a character, as `u32::from_str_radix(.., 16)` reads one
digit (`0-9`, `a-f`, `A-F`). -/
def hexDigitVal (c : Char) : Option Nat :=
  if '0' ≤ c ∧ c ≤ '9' then some (c.toNat - 48)
  else if 'a' ≤ c ∧ c ≤ 'f' then some (c.toNat - 87)
  else if 'A' ≤ c ∧ c ≤ 'F' then some (c.toNat - 55)
  else none

/-- `u32::from_str_radix(s, 16)` for the exactly-two-character strings
`unescape` builds (a leading `+` is accepted by Rust, a failure is an
`InvalidDigit` `ParseIntError`). -/
def fromStrRadix16 (cs : List Char) : Except IntErrKind Nat :=
  match cs with
  | [] => .error .Empty
  | c :: rest =>
    let ds := if c = '+' then rest else c :: rest
    if ds.isEmpty then .error .InvalidDigit
    else
      ds.foldlM (fun acc c =>
        match hexDigitVal c with
        | some v => .ok (acc * 16 + v)
        | none => .error IntErrKind.InvalidDigit) 0

/-- Outcome of `unescape` (no deserializer state involved). -/
inductive URes where
  | ok (out : List Char)
  | err (e : Error)
  | panicked
deriving DecidableEq, Repr

/-- Prepend a character to a successful `unescape` outcome. -/
def URes.cons (c : Char) : URes → URes
  | .ok out => .ok (c :: out)
  | r => r

/-- `unescape` (bottom of `src/de.rs`): decode the escape sequences of a
captured string body.  A `\` as the last character reaches
`chars.next().unwrap()` on `None`: a panic.  For `\u`, two characters are
skipped with ignored results, then two characters are taken (`InvalidEscape`
if missing), parsed as hex (`ParseIntError` on bad digits, converted by
`?` into `Error::ParseInt`), and `char::from_u32` of the ≤ 0xFF result always
succeeds. -/
def unescapeLoop : Nat → List Char → URes
  | 0, _ => .ok []
  | _, [] => .ok []
  | fuel + 1, c :: rest =>
    if c = '\\' then
      match rest with
      | [] => .panicked
      | c2 :: rest2 =>
        if c2 = '"' then URes.cons '"' (unescapeLoop fuel rest2)
        else if c2 = '\\' then URes.cons '\\' (unescapeLoop fuel rest2)
        else if c2 = 'b' then URes.cons '\x08' (unescapeLoop fuel rest2)
        else if c2 = 'f' then URes.cons '\x0c' (unescapeLoop fuel rest2)
        else if c2 = 'n' then URes.cons '\n' (unescapeLoop fuel rest2)
        else if c2 = 'r' then URes.cons '\x0d' (unescapeLoop fuel rest2)
        else if c2 = 't' then URes.cons '\t' (unescapeLoop fuel rest2)
        else if c2 = 'u' then
          -- two characters are skipped (results ignored), then two are taken
          match rest2.get? 2, rest2.get? 3 with
          | some a, some b =>
            match fromStrRadix16 [a, b] with
            | .ok v => URes.cons (Char.ofNat v) (unescapeLoop fuel (rest2.drop 4))
            | .error k => .err (.ParseInt k)
          | _, _ => .err .InvalidEscape
        else URes.cons c2 (unescapeLoop fuel rest2)
    else URes.cons c (unescapeLoop fuel rest)

/-- `unescape` entry: every loop iteration consumes at least one character,
so `s.length` fuel always suffices (the fuel-out base case is unreachable;
it is only ever taken when the character list is already empty). -/
def unescape (s : List Char) : URes := unescapeLoop s.length s

/-- The scanning loop of `Deserializer::parse_string`: repeatedly
`read_until(b'"')`; bail out `Unclosed('"')` when the bytes read do not end in
a quote; treat the quote as escaped (and keep scanning) when the byte at
`check_index` is a backslash.  When the stream is already exhausted and the
heuristic says "escaped", `read_until` keeps returning zero bytes and the
Rust loop repeats the identical iteration forever: `diverged`. -/
def parseStringLoop (buf : List Nat) (hold : Option Nat) :
    Nat → List Nat → DRes (List Nat)
  | 0, _ => .diverged
  | fuel + 1, input =>
    let r := read_until 34 input
    let buf2 := buf ++ r.1
    if buf2.getLast? ≠ some 34 then .err (.Unclosed '"')
    else
      let len := buf2.length
      let ci := if len < 3 then len - 1 else len - 2
      if buf2.getD ci 0 ≠ 92 then .ok buf2 ⟨r.2, hold⟩
      else
        match input with
        | [] => .diverged
        | _ :: _ => parseStringLoop (buf ++ r.1) hold fuel r.2

/-- The scanning loop of `parse_string` with enough fuel: every iteration
that recurses has a nonempty `input` and `read_until` then consumes at least
one byte, so `input.length + 1` fuel always suffices and the fuel-out
`diverged` is unreachable; the reachable `diverged` is the explicit
exhausted-input case above, where the Rust loop repeats an identical
iteration forever. -/
def parse_string_loop (buf : List Nat) (input : List Nat) (hold : Option Nat) :
    DRes (List Nat) :=
  parseStringLoop buf hold (input.length + 1) input

/-- `Deserializer::parse_string`: expect the opening quote, capture up to the
closing quote with the escaped-quote heuristic, then validate UTF-8 and
`unescape` everything except the final quote character. -/
def Deserializer.parse_string (d : Deserializer) : DRes String :=
  (d.expect_next '"').bind fun _ d2 =>
    (parse_string_loop [] d2.input d2.hold).bind fun buf2 d3 =>
      match utf8Decode buf2 with
      | none => .err .Utf8
      | some cs =>
        match unescape cs.dropLast with
        | .ok out => .ok (String.mk out) d3
        | .err e => .err e
        | .panicked => .panicked

/-- `from_bytes::<String>`: `String`'s codec plugin reaches this deserializer
through `deserialize_string`, which is forwarded to `deserialize_any`; on a
leading quote byte that dispatches to `deserialize_str`, i.e. `parse_string`.
A non-quote leading byte would be dispatched to a non-string branch whose
visitor call fails with a type error (`Error::custom`, a `Message`); those
branches are summarised by a `Message` error here and are not exercised by
any claim. -/
def from_bytes_string (l : List Nat) : RRes String :=
  (DRes.bind (Deserializer.peek ⟨l, none⟩) fun b d2 =>
    if byteToChar b = '"' then d2.parse_string
    else .err (.Message "invalid type")).toR

/-- `from_str::<String>`. -/
def from_str_string (s : String) : RRes String := from_bytes_string (strToBytes s)

/-- One lowercase hex digit, as `format!("\x7b:04x\x7d")` renders it. -/
def hexDigitChar (n : Nat) : Char :=
  if n < 10 then Char.ofNat (48 + n) else Char.ofNat (87 + n)

/-- `escape` (bottom of `src/ser.rs`): the escape text of one character.  The
named escapes come first, then any remaining control character below 0x20 as
`\u` plus four lowercase hex digits of its byte value, then the character
itself. -/
def escape (c : Char) : String :=
  if c = '"' then "\\\""
  else if c = '\\' then "\\\\"
  else if c = '\x08' then "\\b"
  else if c = '\x0c' then "\\f"
  else if c = '\n' then "\\n"
  else if c = '\x0d' then "\\r"
  else if c = '\t' then "\\t"
  else if c.toNat ≤ 0x1F then
    String.mk ['\\', 'u', '0', '0', hexDigitChar (c.toNat / 16), hexDigitChar (c.toNat % 16)]
  else String.mk [c]

/-- `Serializer::serialize_str`: quote, escape every character, quote. -/
def serialize_str_text (s : String) : String :=
  "\"" ++ String.join (s.data.map escape) ++ "\""

/-- The serializer state of `src/ser.rs`: the output sink (a growing string;
`Vec<u8>` writes cannot fail) and the single pending-first-element flag
`start`.  `Serializer::new` initialises `start` to `false`. -/
structure Serializer where
  output : String
  start : Bool
deriving DecidableEq, Repr

/-- A value of the serde data model, as a value tree drives the serializer:
one constructor per family of `serialize_*` calls the claims exercise.
`vu64` covers the unsigned integer widths (they all widen to `u64`), `vi64`
the signed ones, map keys are strings (non-string keys are modelled
separately by `KeyValue`). -/
inductive Value where
  | vnull
  | vbool (b : Bool)
  | vu64 (n : Nat)
  | vi64 (n : Int)
  | vchar (c : Char)
  | vstr (s : String)
  | vseq (elems : List Value)
  | vmap (entries : List (String × Value))
  | vunitVariant (variant : String)
  | vnewtypeVariant (variant : String) (v : Value)
  | vtupleVariant (variant : String) (elems : List Value)
  | vstructVariant (variant : String) (entries : List (String × Value))

/-- Append text to the serializer output (`write_all`; cannot fail). -/
def Serializer.write (st : Serializer) (t : String) : Serializer :=
  { st with output := st.output ++ t }

mutual

/-- Drive `&mut Serializer` with a `Value`, method for method:
scalars write their text; `serialize_seq` writes `[`, sets `start`, and
`SerializeSeq::end` writes `]`; `serialize_map` likewise with braces; the
variant forms write the single-key object framing of
`serialize_newtype_variant` / `serialize_tuple_variant` /
`serialize_struct_variant` (whose `end`s write `]\x7d` and `\x7d\x7d`). -/
def serializeValue : Value → Serializer → Except Error Serializer
  | .vnull, st => .ok (st.write "null")
  | .vbool b, st => .ok (st.write (if b then "true" else "false"))
  | .vu64 n, st => .ok (st.write (Nat.repr n))
  | .vi64 n, st => .ok (st.write (Int.repr n))
  | .vchar c, st => .ok (st.write (serialize_str_text (String.mk [c])))
  | .vstr s, st => .ok (st.write (serialize_str_text s))
  | .vseq l, st =>
    match serializeElems l { output := (st.write "[").output, start := true } with
    | .ok st2 => .ok (st2.write "]")
    | .error e => .error e
  | .vmap l, st =>
    match serializeEntries l { output := (st.write "\x7b").output, start := true } with
    | .ok st2 => .ok (st2.write "\x7d")
    | .error e => .error e
  | .vunitVariant name, st => .ok (st.write (serialize_str_text name))
  | .vnewtypeVariant name v, st =>
    match serializeValue v (st.write ("\x7b" ++ serialize_str_text name ++ ":")) with
    | .ok st2 => .ok (st2.write "\x7d")
    | .error e => .error e
  | .vtupleVariant name l, st =>
    match
      serializeElems l
        { output := (st.write ("\x7b" ++ serialize_str_text name ++ ":" ++ "[")).output,
          start := true } with
    | .ok st2 => .ok (st2.write "]\x7d")
    | .error e => .error e
  | .vstructVariant name l, st =>
    match
      serializeEntries l
        { output := (st.write ("\x7b" ++ serialize_str_text name ++ ":" ++ "\x7b")).output,
          start := true } with
    | .ok st2 => .ok (st2.write "\x7d\x7d")
    | .error e => .error e

/-- `SerializeSeq::serialize_element` over the element list: a `,` before
every element for which `start` is false; the first element instead flips
`start` to false. -/
def serializeElems : List Value → Serializer → Except Error Serializer
  | [], st => .ok st
  | v :: rest, st =>
    let st1 := if !st.start then st.write "," else { st with start := false }
    match serializeValue v st1 with
    | .ok st2 => serializeElems rest st2
    | .error e => .error e

/-- `SerializeMap::serialize_key`/`serialize_value` over the entry list, for
string keys: the separator comma (same `start` logic), the key through
`KeySerializer::serialize_str` (which writes the quoted escaped key without
touching `start`), a `:`, then the value. -/
def serializeEntries : List (String × Value) → Serializer → Except Error Serializer
  | [], st => .ok st
  | (k, v) :: rest, st =>
    let st1 := if !st.start then st.write "," else { st with start := false }
    let st2 := st1.write (serialize_str_text k ++ ":")
    match serializeValue v st2 with
    | .ok st3 => serializeEntries rest st3
    | .error e => .error e

end

/-- `to_string(value)`: run the serializer from `Serializer::new` (empty
output, `start = false`) and return the accumulated text. -/
def to_string_value (v : Value) : Except Error String :=
  match serializeValue v { output := "", start := false } with
  | .ok st => .ok st.output
  | .error e => .error e

/-- `from_str::<()>`: the unit codec plugin calls `deserialize_unit`, which is
`parse_null` then `visit_unit`. -/
def from_str_unit (s : String) : RRes Unit :=
  (Deserializer.parse_null ⟨strToBytes s, none⟩).toR

/-- `from_str::<bool>`: `deserialize_bool`. -/
def from_str_bool (s : String) : RRes Bool :=
  (Deserializer.deserialize_bool ⟨strToBytes s, none⟩).toR

/-- The `SeqAccess`/`CommaSeparated` pull loop driven by a `Vec<T>` visitor:
peek for `]` (consume it and stop), otherwise require a `,` unless this is the
first pull, then deserialize one element.  The loop is given fuel (one unit
per pull); the entry points below supply more fuel than a pull could ever
need, since every completed pull consumes at least one input byte. -/
def seqElems {α : Type} (elem : Deserializer → DRes α) :
    Nat → Bool → List α → Deserializer → DRes (List α)
  | 0, _, _, _ => .diverged
  | fuel + 1, start, acc, d =>
    d.peek.bind fun b d2 =>
      if b = 93 then d2.next.bind fun _ d3 => .ok acc.reverse d3
      else
        (if start then .ok () d2 else d2.expect_next ',').bind fun _ d3 =>
          (elem d3).bind fun a d4 => seqElems elem fuel false (a :: acc) d4

/-- `deserialize_seq` driven by a `Vec<T>` visitor: `expect_next('[')`, then
the pull loop. -/
def deserialize_seq_vec {α : Type} (elem : Deserializer → DRes α) (d : Deserializer) :
    DRes (List α) :=
  (d.expect_next '[').bind fun _ d2 =>
    seqElems elem (d2.input.length + 2) true [] d2

/-- `from_str::<Vec<bool>>`. -/
def from_str_vec_bool (s : String) : RRes (List Bool) :=
  (deserialize_seq_vec Deserializer.deserialize_bool ⟨strToBytes s, none⟩).toR

/-- `from_str::<Vec<u8>>` (`Vec<u8>` has no serde specialisation: it goes
through `deserialize_seq` with `u8` elements, i.e. `parse_uint`). -/
def from_str_vec_u8 (s : String) : RRes (List Nat) :=
  (deserialize_seq_vec (Deserializer.parse_uint 255) ⟨strToBytes s, none⟩).toR

/-- The loop of `Deserializer::parse_byte_buf`: unconditionally parse an
unsigned integer, then either consume `]` and stop or require a `,` and
continue.  Fueled like `seqElems`. -/
def byteBufLoop : Nat → List Nat → Deserializer → DRes (List Nat)
  | 0, _, _ => .diverged
  | fuel + 1, buf, d =>
    (d.parse_uint 255).bind fun n d2 =>
      d2.peek.bind fun b d3 =>
        if b = 93 then d3.next.bind fun _ d4 => .ok (buf ++ [n]) d4
        else
          (d3.expect_next ',').bind fun _ d4 => byteBufLoop fuel (buf ++ [n]) d4

/-- `Deserializer::parse_byte_buf`: `expect_next('[')` then the loop. -/
def Deserializer.parse_byte_buf (d : Deserializer) : DRes (List Nat) :=
  (d.expect_next '[').bind fun _ d2 => byteBufLoop (d2.input.length + 2) [] d2

/-- `from_bytes` through `deserialize_bytes` / `deserialize_byte_buf` (both
call `parse_byte_buf` and visit its buffer). -/
def from_str_byte_buf (s : String) : RRes (List Nat) :=
  (Deserializer.parse_byte_buf ⟨strToBytes s, none⟩).toR

/-- The two-variant tagged union of the spec's enum test:
`enum Test \x7b A(u8), B \x7b a: u8, b: u8 \x7d \x7d`. -/
inductive Test where
  | A (n : Nat)
  | B (a : Nat) (b : Nat)
deriving DecidableEq, Repr

/-- The derived `visit_map` loop for `Test::B`'s fields: keys are deserialized
through the identifier path (`deserialize_identifier` forwards to
`deserialize_any`, which on a quote byte is `parse_string`); a known key
checks for duplicates and then pulls its value through `next_value_seed`
(`expect_next(':')` then `parse_uint::<u8>`); an unknown key or a missing
field is a derive-generated `Error::custom`, i.e. a `Message`. -/
def testBFields : Nat → Option Nat → Option Nat → Bool → Deserializer → DRes Test
  | 0, _, _, _, _ => .diverged
  | fuel + 1, fa, fb, start, d =>
    d.peek.bind fun b d2 =>
      if b = 125 then
        d2.next.bind fun _ d3 =>
          match fa, fb with
          | some va, some vb => .ok (.B va vb) d3
          | _, _ => .err (.Message "missing field")
      else
        (if start then .ok () d2 else d2.expect_next ',').bind fun _ d3 =>
          d3.peek.bind fun kb d4 =>
            if byteToChar kb = '"' then
              d4.parse_string.bind fun key d5 =>
                if key = "a" then
                  match fa with
                  | some _ => .err (.Message "duplicate field")
                  | none =>
                    (d5.expect_next ':').bind fun _ d6 =>
                      (d6.parse_uint 255).bind fun n d7 =>
                        testBFields fuel (some n) fb false d7
                else if key = "b" then
                  match fb with
                  | some _ => .err (.Message "duplicate field")
                  | none =>
                    (d5.expect_next ':').bind fun _ d6 =>
                      (d6.parse_uint 255).bind fun n d7 =>
                        testBFields fuel fa (some n) false d7
                else .err (.Message "unknown field")
            else .err (.Message "invalid type")

/-- `from_str::<Test>`: the derived codec plugin calls
`deserialize_enum("Test", ["A", "B"], ..)`.  On a quote byte the bare string
names a unit variant, which `Test` does not have (derive rejects with a
`Message`).  On `\x7b` the variant identifier is parsed (unknown variants are
rejected by the derived identifier visitor before the `:`), `variant_seed`
consumes the `:`, the payload is parsed per variant (newtype `u8` for `A`;
`deserialize_map` over `a`/`b` for `B`), and finally `deserialize_enum`
demands the closing `\x7d`, turning any failure there into `Unclosed('\x7b')`. -/
def from_str_test (s : String) : RRes Test :=
  (DRes.bind (Deserializer.peek ⟨strToBytes s, none⟩) fun b d2 =>
    if byteToChar b = '"' then
      d2.parse_string.bind fun _ _ => .err (.Message "invalid type")
    else if b = 123 then
      d2.next.bind fun _ d3 =>
        d3.peek.bind fun kb d4 =>
          (if byteToChar kb = '"' then d4.parse_string
           else .err (.Message "invalid type")).bind fun name d5 =>
            ((if name = "A" ∨ name = "B" then .ok () d5
              else .err (.Message "unknown variant") : DRes Unit)).bind fun _ d6 =>
              (d6.expect_next ':').bind fun _ d7 =>
                (if name = "A" then d7.parse_uint 255 |>.bind fun n d8 => .ok (Test.A n) d8
                 else
                   (d7.expect_next (byteToChar 123)).bind fun _ d8 =>
                     testBFields (d8.input.length + 2) none none true d8).bind fun t d9 =>
                  match d9.expect_next (byteToChar 125) with
                  | .ok _ d10 => .ok t d10
                  | _ => .err (.Unclosed (byteToChar 123))
    else .err (.Unexpected (String.mk [byteToChar b]) (some "string or object"))).toR

/-- The exponent tail of Rust's float grammar: an optional sign then one or
more digits, consuming the whole remainder. -/
def floatExpTail (cs : List Char) : Bool :=
  let body := match cs with
    | c :: rest => if c = '+' || c = '-' then rest else cs
    | [] => []
  !body.isEmpty && body.all Char.isDigit

/-- Modelled from Rust's documented `f64::from_str` grammar: an optional
sign, then `Digit+`, `Digit+ '.' Digit*` or `Digit* '.' Digit+`, then an
optional `('e'|'E') Sign? Digit+`.  The `inf`/`infinity`/`nan` keyword forms
are omitted: the deserializer's number scanner only ever collects signs,
digits, dots and exponent letters, so the keywords are unreachable here. -/
def floatTextAccepted (cs : List Char) : Bool :=
  let body := match cs with
    | c :: rest => if c = '+' || c = '-' then rest else cs
    | [] => []
  let d1 := body.takeWhile Char.isDigit
  let r1 := body.dropWhile Char.isDigit
  match r1 with
  | [] => !d1.isEmpty
  | c :: r2 =>
    if c = '.' then
      let d2 := r2.takeWhile Char.isDigit
      let r3 := r2.dropWhile Char.isDigit
      if d1.isEmpty && d2.isEmpty then false
      else
        match r3 with
        | [] => true
        | c2 :: r4 => if c2 = 'e' || c2 = 'E' then floatExpTail r4 else false
    else if c = 'e' || c = 'E' then !d1.isEmpty && floatExpTail r2
    else false

/-- Modelled from the spec: the names of the closed error taxonomy of §7
(`Io`, `Utf8`, `Unexpected`, `Unclosed`, `InvalidEscape`, `ParseInt`,
`ParseFloat`, `KeyNotString`, `Message`). -/
inductive SpecErrorKind where
  | ioKind
  | utf8Kind
  | unexpectedKind
  | unclosedKind
  | invalidEscapeKind
  | parseIntKind
  | parseFloatKind
  | keyNotStringKind
  | messageKind
deriving DecidableEq, Repr

/-- Which spec taxonomy member each code error constructor realises.  The
code's `TrailingComma` is outside the spec taxonomy (`none`), and no code
constructor realises the spec's `ParseFloat`. -/
def specKindOf : Error → Option SpecErrorKind
  | .IoEof => some .ioKind
  | .KeyNotString => some .keyNotStringKind
  | .Unclosed _ => some .unclosedKind
  | .Utf8 => some .utf8Kind
  | .Unexpected _ _ => some .unexpectedKind
  | .TrailingComma => none
  | .InvalidEscape => some .invalidEscapeKind
  | .ParseInt _ => some .parseIntKind
  | .Message _ => some .messageKind

/-- The key shapes a serde `Serialize` impl can push at the `KeySerializer`:
one constructor per `serialize_*` method of the `serde::Serializer` trait. -/
inductive KeyValue where
  | kBool (b : Bool)
  | kI8 (n : Int)
  | kI16 (n : Int)
  | kI32 (n : Int)
  | kI64 (n : Int)
  | kU8 (n : Nat)
  | kU16 (n : Nat)
  | kU32 (n : Nat)
  | kU64 (n : Nat)
  | kF32
  | kF64
  | kChar (c : Char)
  | kStr (s : String)
  | kBytes (bs : List Nat)
  | kNone
  | kSome (k : KeyValue)
  | kUnit
  | kUnitStruct
  | kUnitVariant
  | kNewtypeStruct (k : KeyValue)
  | kNewtypeVariant
  | kSeq
  | kTuple
  | kTupleStruct
  | kTupleVariant
  | kMap
  | kStruct
  | kStructVariant
deriving DecidableEq, Repr

/-- `KeySerializer` (`src/ser.rs`): `serialize_char` converts to a one-char
string, `serialize_str` writes the quoted escaped text (through a fresh
`Serializer` with `start = false`), `serialize_some` and
`serialize_newtype_struct` unwrap and recurse; every other method returns
`Err(Error::KeyNotString)` (aggregate methods through `Impossible`). -/
def serializeKeyValue : KeyValue → Except Error String
  | .kChar c => .ok (serialize_str_text (String.mk [c]))
  | .kStr s => .ok (serialize_str_text s)
  | .kSome k => serializeKeyValue k
  | .kNewtypeStruct k => serializeKeyValue k
  | _ => .error .KeyNotString

/-- Modelled from the spec: "accepts only character and string-shaped values
(and transparently unwraps an option/newtype around one)". -/
def keyStringShaped : KeyValue → Bool
  | .kChar _ => true
  | .kStr _ => true
  | .kSome k => keyStringShaped k
  | .kNewtypeStruct k => keyStringShaped k
  | _ => false

/-- `serialize_map` for entries with arbitrary key shapes:
`SerializeMap::serialize_key` writes the separator, routes the key through
the `KeySerializer` (propagating its error), then writes `:`;
`serialize_value` writes the value; `end` writes the closing brace. -/
def serializeEntriesKV : List (KeyValue × Value) → Serializer → Except Error Serializer
  | [], st => .ok st
  | (k, v) :: rest, st =>
    let st1 := if !st.start then st.write "," else { st with start := false }
    match serializeKeyValue k with
    | .error e => .error e
    | .ok keyText =>
      match serializeValue v (st1.write (keyText ++ ":")) with
      | .ok st3 => serializeEntriesKV rest st3
      | .error e => .error e

/-- `to_string` of a map value with arbitrary key shapes. -/
def to_string_mapKV (entries : List (KeyValue × Value)) : Except Error String :=
  match serializeEntriesKV entries { output := "\x7b", start := true } with
  | .ok st => .ok (st.write "\x7d").output
  | .error e => .error e

/-! Theorems.  First the shared helper lemmas, then one theorem per claim. -/

/-- Digits cannot be whitespace. -/
theorem digit_not_ws {b : Nat} (h : isDigitByte b) : byteIsWhitespace b = false := by
  simp only [isDigitByte, Bool.and_eq_true, decide_eq_true_eq] at h
  simp only [byteIsWhitespace, Bool.or_eq_false_iff, beq_eq_false_iff_ne, ne_eq]
  omega

mutual

/-- Serialization of a `Value` always succeeds: the only error source in the
serializer is the key serializer, and `Value` map keys are strings, which it
accepts. -/
theorem serializeValue_ok : ∀ (v : Value) (st : Serializer),
    ∃ st2, serializeValue v st = .ok st2
  | .vnull, _ => ⟨_, rfl⟩
  | .vbool _, _ => ⟨_, rfl⟩
  | .vu64 _, _ => ⟨_, rfl⟩
  | .vi64 _, _ => ⟨_, rfl⟩
  | .vchar _, _ => ⟨_, rfl⟩
  | .vstr _, _ => ⟨_, rfl⟩
  | .vunitVariant _, _ => ⟨_, rfl⟩
  | .vseq l, st => by
    obtain ⟨st2, h⟩ := serializeElems_ok l { output := (st.write "[").output, start := true }
    exact ⟨st2.write "]", by simp [serializeValue, h]⟩
  | .vmap l, st => by
    obtain ⟨st2, h⟩ := serializeEntries_ok l { output := (st.write "\x7b").output, start := true }
    exact ⟨st2.write "\x7d", by simp [serializeValue, h]⟩
  | .vnewtypeVariant name v, st => by
    obtain ⟨st2, h⟩ := serializeValue_ok v (st.write ("\x7b" ++ serialize_str_text name ++ ":"))
    exact ⟨st2.write "\x7d", by simp [serializeValue, h]⟩
  | .vtupleVariant name l, st => by
    obtain ⟨st2, h⟩ :=
      serializeElems_ok l
        { output := (st.write ("\x7b" ++ serialize_str_text name ++ ":" ++ "[")).output,
          start := true }
    exact ⟨st2.write "]\x7d", by simp [serializeValue, h]⟩
  | .vstructVariant name l, st => by
    obtain ⟨st2, h⟩ :=
      serializeEntries_ok l
        { output := (st.write ("\x7b" ++ serialize_str_text name ++ ":" ++ "\x7b")).output,
          start := true }
    exact ⟨st2.write "\x7d\x7d", by simp [serializeValue, h]⟩

/-- Element serialization of a sequence always succeeds. -/
theorem serializeElems_ok : ∀ (l : List Value) (st : Serializer),
    ∃ st2, serializeElems l st = .ok st2
  | [], st => ⟨st, rfl⟩
  | v :: rest, st => by
    obtain ⟨st2, h⟩ :=
      serializeValue_ok v (if !st.start then st.write "," else { st with start := false })
    obtain ⟨st3, h2⟩ := serializeElems_ok rest st2
    refine ⟨st3, ?_⟩
    simp only [serializeElems]
    rw [h]
    exact h2

/-- Entry serialization of a string-keyed map always succeeds. -/
theorem serializeEntries_ok : ∀ (l : List (String × Value)) (st : Serializer),
    ∃ st2, serializeEntries l st = .ok st2
  | [], st => ⟨st, rfl⟩
  | (k, v) :: rest, st => by
    obtain ⟨st2, h⟩ :=
      serializeValue_ok v
        ((if !st.start then st.write "," else { st with start := false }).write
          (serialize_str_text k ++ ":"))
    obtain ⟨st3, h2⟩ := serializeEntries_ok rest st2
    refine ⟨st3, ?_⟩
    simp only [serializeEntries]
    rw [h]
    exact h2

end

/-- The key serializer accepts exactly the string-shaped keys. -/
theorem serializeKeyValue_ok_iff : ∀ k : KeyValue,
    (serializeKeyValue k).isOk = keyStringShaped k
  | .kBool _ => rfl
  | .kI8 _ => rfl
  | .kI16 _ => rfl
  | .kI32 _ => rfl
  | .kI64 _ => rfl
  | .kU8 _ => rfl
  | .kU16 _ => rfl
  | .kU32 _ => rfl
  | .kU64 _ => rfl
  | .kF32 => rfl
  | .kF64 => rfl
  | .kChar _ => rfl
  | .kStr _ => rfl
  | .kBytes _ => rfl
  | .kNone => rfl
  | .kSome k => by
    simpa [serializeKeyValue, keyStringShaped] using serializeKeyValue_ok_iff k
  | .kUnit => rfl
  | .kUnitStruct => rfl
  | .kUnitVariant => rfl
  | .kNewtypeStruct k => by
    simpa [serializeKeyValue, keyStringShaped] using serializeKeyValue_ok_iff k
  | .kNewtypeVariant => rfl
  | .kSeq => rfl
  | .kTuple => rfl
  | .kTupleStruct => rfl
  | .kTupleVariant => rfl
  | .kMap => rfl
  | .kStruct => rfl
  | .kStructVariant => rfl

/-- C1: the round-trip `from_str(to_string(v)) == Ok(v)` is broken by the code
even far from the Unicode-escape and exponent-sign caveats: serializing
`vec![true, true]` writes `[true,true]`, but parsing it back fails, because
`deserialize_bool` peeks the `t` into the hold register and never clears it, so
the sequence cursor's next pull sees the stale `t` where it expects `,` or `]`.
The claim is the spec's intent and the unconsumed-hold is a code slip. -/
theorem c1_roundtrip_code_bug :
    to_string_value (.vseq [.vbool true, .vbool true]) = .ok "[true,true]"
    ∧ from_str_vec_bool "[true,true]" = .err (.Unexpected "t" (some ",")) :=
  ⟨rfl, rfl⟩

/-- C2: the pending-first-element flag is not correctly scoped across an empty
nested aggregate: serializing `[[], [1]]` yields `[[][1]]` — the `[` of the
empty inner sequence sets the flag, nothing consumes it, and the sibling
`[1]` is then treated as a first element and loses its comma.  A non-empty
first nested aggregate, by contrast, consumes the flag and the sibling keeps
its comma. -/
theorem c2_empty_aggregate_comma_code_bug :
    to_string_value (.vseq [.vseq [], .vseq [.vu64 1]]) = .ok "[[][1]]"
    ∧ to_string_value (.vseq [.vseq [.vu64 1], .vseq []]) = .ok "[[1],[]]" :=
  ⟨rfl, rfl⟩

/-- C3 counterexample: the claim's "never panicking" conjunct is false — on
the 4-byte input quote, backslash, quote, quote, the public string parse
panics. -/
theorem c3_counterexample_never_panics :
    from_bytes_string [34, 92, 34, 34] = .panicked :=
  rfl

/-- C3 amended: on the input quote-backslash-quote-quote, `parse_string`'s
scan captures exactly the 2-byte span backslash-quote (the `len < 3` branch
checks the closing-quote byte itself, which is not a backslash, so the
escaped quote is accepted as the terminator); `unescape` of the remaining
lone backslash hits `chars.next().unwrap()` on `None`; and the panic is thus
reachable from the public parse interface. -/
theorem c3_amended_panic_reachable :
    parse_string_loop [] [92, 34, 34] none = .ok [92, 34] ⟨[34], none⟩
    ∧ unescape ['\\'] = .panicked
    ∧ Deserializer.parse_string ⟨[34, 92, 34, 34], none⟩ = .panicked
    ∧ from_bytes_string [34, 92, 34, 34] = .panicked :=
  ⟨rfl, rfl, rfl, rfl⟩

/-- C4: whitespace insertion is not transparent on the type-directed
unit/null path: `parse_null` with an empty hold register reads four raw bytes
without skipping whitespace, so `from_str::<()>` accepts `null` but rejects
` null` with `Unexpected(" nul")` — against the spec's whitespace-tolerance
requirement, which the claim states. -/
theorem c4_null_whitespace_code_bug :
    from_str_unit "null" = .ok ()
    ∧ from_str_unit " null" = .err (.Unexpected " nul" (some "null")) :=
  ⟨rfl, rfl⟩

/-- C5: escape fidelity in both directions: `a"b` serializes to the 7-byte
text `"a\"b"` and parses back; the control character 0x0F serializes to
`"\u000f"` and parses back. -/
theorem c5_escape_fidelity :
    to_string_value (.vstr "a\"b") = .ok "\"a\\\"b\""
    ∧ from_str_string "\"a\\\"b\"" = .ok "a\"b"
    ∧ to_string_value (.vstr "\x0F") = .ok "\"\\u000f\""
    ∧ from_str_string "\"\\u000f\"" = .ok "\x0F" :=
  ⟨rfl, rfl, rfl, rfl⟩

/-- C8: against the two-variant tagged union `A(u8)` / `B\x7ba,b\x7d`:
the two object texts deserialize to the two variants, and serializing the
variants produces exactly those texts (single-key object, closing brace
consumed/emitted, no whitespace). -/
theorem c8_enum_forms :
    from_str_test "\x7b\"A\":1\x7d" = .ok (Test.A 1)
    ∧ from_str_test "\x7b\"B\":\x7b\"a\":1,\"b\":2\x7d\x7d" = .ok (Test.B 1 2)
    ∧ to_string_value (.vnewtypeVariant "A" (.vu64 1)) = .ok "\x7b\"A\":1\x7d"
    ∧ to_string_value (.vstructVariant "B" [("a", .vu64 1), ("b", .vu64 2)])
      = .ok "\x7b\"B\":\x7b\"a\":1,\"b\":2\x7d\x7d" :=
  ⟨rfl, rfl, rfl, rfl⟩

/-- C9: the key serializer accepts exactly character and string-shaped keys
(unwrapping options/newtypes); every other shape makes map serialization fail
with `KeyNotString` (shown for an integer-keyed map); and serializing any
string-keyed map succeeds. -/
theorem c9_key_serializer :
    (∀ k : KeyValue, (serializeKeyValue k).isOk = keyStringShaped k)
    ∧ to_string_mapKV [(.kU8 1, .vu64 1)] = .error .KeyNotString
    ∧ ∀ entries : List (String × Value), (to_string_value (.vmap entries)).isOk = true := by
  refine ⟨serializeKeyValue_ok_iff, rfl, ?_⟩
  intro entries
  obtain ⟨st2, h⟩ :=
    serializeEntries_ok entries
      { output := (Serializer.write { output := "", start := false } "\x7b").output,
        start := true }
  simp [to_string_value, serializeValue, h, Except.isOk, Except.toBool]

/-- C9 witness: the theorem applied at a boolean key shape and at a concrete
one-entry string-keyed map. -/
theorem c9_key_serializer_witness :
    (serializeKeyValue (.kBool true)).isOk = keyStringShaped (.kBool true)
    ∧ (to_string_value (.vmap [("k", .vu64 7)])).isOk = true :=
  ⟨c9_key_serializer.1 (.kBool true), c9_key_serializer.2.2 [("k", .vu64 7)]⟩

/-- Inversion of a successful `bind`: the first step succeeded too. -/
theorem DRes.bind_ok {α β : Type} {r : DRes α} {f : α → Deserializer → DRes β} {b : β}
    {d2 : Deserializer} (h : r.bind f = .ok b d2) :
    ∃ a d1, r = .ok a d1 ∧ f a d1 = .ok b d2 := by
  cases r with
  | ok a d => exact ⟨a, d, rfl, h⟩
  | err e => simp [DRes.bind] at h
  | panicked => simp [DRes.bind] at h
  | diverged => simp [DRes.bind] at h

/-- Inversion of a successful call result. -/
theorem DRes.toR_ok {α : Type} {r : DRes α} {a : α} (h : r.toR = .ok a) :
    ∃ d, r = .ok a d := by
  cases r with
  | ok b d =>
    simp only [DRes.toR] at h
    cases h
    exact ⟨d, rfl⟩
  | err e => simp [DRes.toR] at h
  | panicked => simp [DRes.toR] at h
  | diverged => simp [DRes.toR] at h

/-- Every completed pull of `parse_byte_buf`'s loop grows the buffer: a
successful run returns strictly more elements than it started with, because an
element is parsed before the closing bracket is ever looked at. -/
theorem byteBufLoop_ok_longer :
    ∀ (fuel : Nat) (buf : List Nat) (d : Deserializer) (r : List Nat) (d2 : Deserializer),
      byteBufLoop fuel buf d = .ok r d2 → buf.length < r.length := by
  intro fuel
  induction fuel with
  | zero => intro buf d r d2 h; simp [byteBufLoop] at h
  | succ n ih =>
    intro buf d r d2 h
    simp only [byteBufLoop] at h
    obtain ⟨m, dA, _, h⟩ := DRes.bind_ok h
    obtain ⟨b, dB, _, h⟩ := DRes.bind_ok h
    by_cases hcl : b = 93
    · rw [if_pos hcl] at h
      obtain ⟨x, dC, _, h⟩ := DRes.bind_ok h
      cases h
      simp
    · rw [if_neg hcl] at h
      obtain ⟨u, dC, _, h⟩ := DRes.bind_ok h
      have := ih (buf ++ [m]) dC r d2 h
      simp only [List.length_append, List.length_cons, List.length_nil] at this
      omega

/-- C6: the spec's closed error taxonomy does not match the code: no
constructor of the code's `Error` enum realises the spec's `ParseFloat` kind
(the enum instead carries a never-constructed `TrailingComma`), while a float
parse failure is reachable — `deserialize_f32`/`deserialize_f64` on the input
`1e` collect exactly the text `1e`, which Rust's float grammar rejects, and
the `Ok(string.parse()?)` line has no `From<ParseFloatError>` conversion to
produce any error with. -/
theorem c6_missing_parse_float :
    (∀ e : Error, specKindOf e ≠ some .parseFloatKind)
    ∧ Deserializer.parse_float_scan ⟨strToBytes "1e", none⟩ = .ok "1e" ⟨[], none⟩
    ∧ floatTextAccepted "1e".data = false := by
  refine ⟨?_, rfl, rfl⟩
  intro e
  cases e <;> simp [specKindOf]

/-- C6 witness: the taxonomy part applied at a concrete error value. -/
theorem c6_missing_parse_float_witness :
    specKindOf (.ParseInt .Empty) ≠ some .parseFloatKind :=
  c6_missing_parse_float.1 (.ParseInt .Empty)

/-- C10: deserializing `[]` (with or without inner whitespace) through the
byte-buffer entry points fails with `ParseInt` (kind `Empty`: `parse_uint`
runs before the `]` check and hands `""` to the integer parser), every byte
buffer the wire format accepts is non-empty, and the same `[]` parses as an
empty generic sequence. -/
theorem c10_byte_buf_nonempty :
    from_str_byte_buf "[]" = .err (.ParseInt .Empty)
    ∧ from_str_byte_buf "[ ]" = .err (.ParseInt .Empty)
    ∧ (∀ (s : String) (r : List Nat), from_str_byte_buf s = .ok r → r ≠ [])
    ∧ from_str_vec_u8 "[]" = .ok [] := by
  refine ⟨rfl, rfl, ?_, rfl⟩
  intro s r h
  simp only [from_str_byte_buf] at h
  obtain ⟨d, h⟩ := DRes.toR_ok h
  simp only [Deserializer.parse_byte_buf] at h
  obtain ⟨u, d2, _, h⟩ := DRes.bind_ok h
  have := byteBufLoop_ok_longer _ _ _ _ _ h
  intro hr
  rw [hr] at this
  simp at this

/-- C10 witness: the non-emptiness part applied at the concrete accepted
input `[1]`. -/
theorem c10_byte_buf_nonempty_witness : ([1] : List Nat) ≠ [] :=
  c10_byte_buf_nonempty.2.2.1 "[1]" [1] rfl

/-- `Char.ofNat` below the surrogate range round-trips through `toNat`. -/
theorem char_toNat_ofNat {n : Nat} (h : n < 0xD800) : (Char.ofNat n).toNat = n := by
  have hv : Nat.isValidChar n := Or.inl h
  simp [Char.ofNat, hv]
  rfl

/-- A byte cannot decode to a character with a different code point. -/
theorem charOfNat_ne_char {b : Nat} (hb : b < 0xD800) (c : Char) (hne : b ≠ c.toNat) :
    Char.ofNat b ≠ c := by
  intro he
  apply hne
  rw [← he]
  exact (char_toNat_ofNat hb).symm

/-- The numeric bounds behind `isDigitByte`. -/
theorem digit_byte_bounds {b : Nat} (h : isDigitByte b) : 48 ≤ b ∧ b ≤ 57 := by
  simpa [isDigitByte, Bool.and_eq_true, decide_eq_true_eq] using h

/-- ASCII digit bytes decode to digit characters. -/
theorem char_isDigit_of_digitByte {b : Nat} (h : isDigitByte b) :
    (Char.ofNat b).isDigit = true := by
  obtain ⟨h1, h2⟩ := digit_byte_bounds h
  have ht : (Char.ofNat b).toNat = b := char_toNat_ofNat (by omega)
  simp only [Char.isDigit, ge_iff_le, Bool.and_eq_true, decide_eq_true_eq]
  rw [UInt32.le_def, UInt32.le_def, BitVec.le_def, BitVec.le_def]
  have hx : (Char.ofNat b).val.toBitVec.toNat = b := ht
  rw [hx]
  norm_num
  omega

/-- `String::from_utf8` on all-ASCII bytes: each byte is its own character. -/
theorem utf8DecodeLoop_ascii : ∀ (l : List Nat) (fuel : Nat), l.length < fuel →
    (∀ b ∈ l, b < 128) → utf8DecodeLoop fuel l = some (l.map Char.ofNat) := by
  intro l
  induction l with
  | nil =>
    intro fuel hf _
    match fuel, hf with
    | f + 1, _ => rfl
  | cons b rest ih =>
    intro fuel hf h
    match fuel, hf with
    | f + 1, hf =>
      have hb : b < 128 := h b (by simp)
      have hn : utf8SeqLen b = 1 := by simp [utf8SeqLen, hb]
      have hr := ih f (by simp only [List.length_cons] at hf; omega)
        (fun x hx => h x (by simp [hx]))
      simp only [utf8DecodeLoop, hn]
      norm_num
      simpa [utf8TailOk, utf8Assemble] using hr

/-- `String::from_utf8` on all-ASCII bytes (whole-list form). -/
theorem utf8Decode_ascii (l : List Nat) (h : ∀ b ∈ l, b < 128) :
    utf8Decode l = some (l.map Char.ofNat) :=
  utf8DecodeLoop_ascii l (l.length + 1) (by omega) h

/-- `String` concatenation is list concatenation of the characters. -/
theorem string_mk_append (a b : List Char) : String.mk a ++ String.mk b = String.mk (a ++ b) :=
  rfl

/-- `peek` with a held byte returns it and changes nothing. -/
theorem peek_hold (input : List Nat) (h : Nat) :
    Deserializer.peek ⟨input, some h⟩ = .ok h ⟨input, some h⟩ :=
  rfl

/-- `next` with a held byte returns it and clears the register. -/
theorem next_hold (input : List Nat) (h : Nat) :
    Deserializer.next ⟨input, some h⟩ = .ok h ⟨input, none⟩ :=
  rfl

/-- `peek` with no held byte on a non-whitespace head reads and parks it. -/
theorem peek_cons {b : Nat} (hb : byteIsWhitespace b = false) (rest : List Nat) :
    Deserializer.peek ⟨b :: rest, none⟩ = .ok b ⟨rest, some b⟩ := by
  simp [Deserializer.peek, List.dropWhile_cons, hb]

/-- `get_integer`'s loop on a digit run followed by a non-digit,
non-whitespace terminator: collects exactly the digits and parks the
terminator in the hold register. -/
theorem getIntegerLoop_digits :
    ∀ (dsb : List Nat) (fuel : Nat) (buf : List Nat) (tb : Nat) (rest : List Nat),
      dsb.length < fuel →
      (∀ b ∈ dsb, isDigitByte b) →
      (∀ b ∈ buf, b < 128) →
      isDigitByte tb = false → byteIsWhitespace tb = false →
      getIntegerLoop fuel buf ⟨dsb ++ tb :: rest, none⟩
        = .ok (String.mk ((buf ++ dsb).map Char.ofNat)) ⟨rest, some tb⟩ := by
  intro dsb
  induction dsb with
  | nil =>
    intro fuel buf tb rest hfuel _ hbuf htb hws
    match fuel, hfuel with
    | f + 1, _ =>
      simp only [getIntegerLoop, List.nil_append, List.dropWhile_cons, hws,
        Bool.false_eq_true, if_false, htb, giFinish, utf8Decode_ascii buf hbuf,
        List.append_nil]
  | cons d0 dsTail ih =>
    intro fuel buf tb rest hfuel hds hbuf htb hws
    match fuel, hfuel with
    | f + 1, hf =>
      have hd : isDigitByte d0 := hds d0 (by simp)
      have hws2 : byteIsWhitespace d0 = false := digit_not_ws hd
      have hstep := ih f (buf ++ [d0]) tb rest
        (by simp only [List.length_cons] at hf; omega)
        (fun x hx => hds x (by simp [hx]))
        (by
          intro x hx
          rcases List.mem_append.mp hx with hx | hx
          · exact hbuf x hx
          · obtain ⟨_, h2⟩ := digit_byte_bounds hd
            simp at hx
            omega)
        htb hws
      simp only [getIntegerLoop, List.cons_append, List.dropWhile_cons, hws2,
        Bool.false_eq_true, if_false, hd, if_true]
      rw [hstep]
      simp [List.append_assoc]

/-- `get_integer` (empty hold) on a digit run and terminator. -/
theorem get_integer_digits (dsb buf : List Nat) (tb : Nat) (rest : List Nat)
    (hds : ∀ b ∈ dsb, isDigitByte b) (hbuf : ∀ b ∈ buf, b < 128)
    (htb : isDigitByte tb = false) (hws : byteIsWhitespace tb = false) :
    Deserializer.get_integer buf ⟨dsb ++ tb :: rest, none⟩
      = .ok (String.mk ((buf ++ dsb).map Char.ofNat)) ⟨rest, some tb⟩ := by
  apply getIntegerLoop_digits dsb _ buf tb rest _ hds hbuf htb hws
  simp only [Deserializer.get_integer, List.length_append, List.length_cons]
  omega

/-- `get_integer` with a held digit: the held byte is consumed first, then
the digit run, then the terminator is parked. -/
theorem get_integer_digits_hold (d0 : Nat) (dsb buf : List Nat) (tb : Nat) (rest : List Nat)
    (hd0 : isDigitByte d0)
    (hds : ∀ b ∈ dsb, isDigitByte b) (hbuf : ∀ b ∈ buf, b < 128)
    (htb : isDigitByte tb = false) (hws : byteIsWhitespace tb = false) :
    Deserializer.get_integer buf ⟨dsb ++ tb :: rest, some d0⟩
      = .ok (String.mk ((buf ++ d0 :: dsb).map Char.ofNat)) ⟨rest, some tb⟩ := by
  show getIntegerLoop ((dsb ++ tb :: rest).length + 2) buf ⟨dsb ++ tb :: rest, some d0⟩ = _
  show (if isDigitByte d0 then
          getIntegerLoop ((dsb ++ tb :: rest).length + 1) (buf ++ [d0]) ⟨dsb ++ tb :: rest, none⟩
        else giFinish buf ⟨dsb ++ tb :: rest, some d0⟩) = _
  rw [if_pos hd0]
  have hstep := getIntegerLoop_digits dsb ((dsb ++ tb :: rest).length + 1) (buf ++ [d0]) tb rest
    (by simp only [List.length_append, List.length_cons]; omega)
    hds
    (by
      intro x hx
      rcases List.mem_append.mp hx with hx | hx
      · exact hbuf x hx
      · obtain ⟨_, h2⟩ := digit_byte_bounds hd0
        simp at hx
        omega)
    htb hws
  rw [hstep]
  simp [List.append_assoc]

/-- The exponent step when the held terminator is not `e`/`E`: classify. -/
theorem pn_exp_none (text1 : String) (float1 signed : Bool) (rest : List Nat) (tb : Nat)
    (htb : tb < 0xD800) (h1 : tb ≠ 101) (h2 : tb ≠ 69) :
    Deserializer.pn_exp text1 float1 signed ⟨rest, some tb⟩
      = .ok (if float1 then .f64Route text1 else if signed then .i64Route text1
             else .u64Route text1) ⟨rest, some tb⟩ := by
  have he : byteToChar tb ≠ 'e' := charOfNat_ne_char htb 'e' (by simpa using h1)
  have hE : byteToChar tb ≠ 'E' := charOfNat_ne_char htb 'E' (by simpa using h2)
  simp only [Deserializer.pn_exp, peek_hold, DRes.bind]
  rw [if_neg (by simp [he, hE])]

/-- The exponent step on a held `e`/`E`: consume it, collect the exponent
digit run, and classify as a float. -/
theorem pn_exp_some (text1 : String) (float1 signed : Bool) (ec : Nat) (x : List Nat)
    (rest : List Nat) (tb : Nat) (hec : ec = 101 ∨ ec = 69)
    (hx : ∀ b ∈ x, isDigitByte b)
    (htb : isDigitByte tb = false) (hws : byteIsWhitespace tb = false) :
    Deserializer.pn_exp text1 float1 signed ⟨x ++ tb :: rest, some ec⟩
      = .ok (.f64Route (text1 ++ String.mk ((ec :: x).map Char.ofNat))) ⟨rest, some tb⟩ := by
  have hech : byteToChar ec = 'e' ∨ byteToChar ec = 'E' := by
    rcases hec with h | h <;> subst h
    · left; rfl
    · right; rfl
  simp only [Deserializer.pn_exp, peek_hold, DRes.bind]
  rw [if_pos (by rcases hech with h | h <;> simp [h])]
  simp only [next_hold, DRes.bind]
  rw [get_integer_digits x [ec] tb rest hx
    (by rcases hec with h | h <;> subst h <;> intro b hb <;> simp at hb <;> omega)
    htb hws]
  simp

/-- The fraction step when the held byte is not `.`. -/
theorem pn_frac_none (s1 : String) (signed : Bool) (inp : List Nat) (hb : Nat)
    (h46 : hb ≠ 46) :
    Deserializer.pn_frac s1 signed ⟨inp, some hb⟩
      = Deserializer.pn_exp s1 false signed ⟨inp, some hb⟩ := by
  simp only [Deserializer.pn_frac, peek_hold, DRes.bind]
  rw [if_neg h46]

/-- The fraction step on a held `.`: consume it and collect the fraction. -/
theorem pn_frac_some (s1 : String) (signed : Bool) (f : List Nat) (tb2 : Nat)
    (rest2 : List Nat) (hf : ∀ b ∈ f, isDigitByte b)
    (htb : isDigitByte tb2 = false) (hws : byteIsWhitespace tb2 = false) :
    Deserializer.pn_frac s1 signed ⟨f ++ tb2 :: rest2, some 46⟩
      = Deserializer.pn_exp (s1 ++ String.mk ((46 :: f).map Char.ofNat)) true signed
          ⟨rest2, some tb2⟩ := by
  simp only [Deserializer.pn_frac, peek_hold, DRes.bind]
  norm_num
  simp only [next_hold, DRes.bind]
  rw [get_integer_digits f [46] tb2 rest2 hf (by intro b hb; simp at hb; omega) htb hws]
  simp

/-- Opening of `parse_number`: a leading `-` is consumed and sets `signed`,
then the integer digit run is collected up to the first non-digit. -/
theorem pnr_open_sign (ds : List Nat) (t1 : Nat) (tail : List Nat)
    (hds : ∀ b ∈ ds, isDigitByte b)
    (ht1 : isDigitByte t1 = false) (hws : byteIsWhitespace t1 = false) :
    Deserializer.parse_number_route ⟨45 :: (ds ++ t1 :: tail), none⟩
      = Deserializer.pn_frac (String.mk ((45 :: ds).map Char.ofNat)) true ⟨tail, some t1⟩ := by
  simp only [Deserializer.parse_number_route]
  rw [peek_cons (by rfl)]
  simp only [DRes.bind]
  norm_num
  simp only [next_hold, DRes.bind]
  rw [get_integer_digits ds [45] t1 tail hds (by intro b hb; simp at hb; omega) ht1 hws]
  simp only [DRes.bind]
  simp

/-- Opening of `parse_number` without a sign: the first digit is peeked
(and held), then the digit run is collected up to the first non-digit. -/
theorem pnr_open_nosign (d0 : Nat) (ds : List Nat) (t1 : Nat) (tail : List Nat)
    (hd0 : isDigitByte d0) (hds : ∀ b ∈ ds, isDigitByte b)
    (ht1 : isDigitByte t1 = false) (hws : byteIsWhitespace t1 = false) :
    Deserializer.parse_number_route ⟨d0 :: (ds ++ t1 :: tail), none⟩
      = Deserializer.pn_frac (String.mk ((d0 :: ds).map Char.ofNat)) false ⟨tail, some t1⟩ := by
  simp only [Deserializer.parse_number_route]
  rw [peek_cons (digit_not_ws hd0)]
  simp only [DRes.bind]
  rw [if_neg (by obtain ⟨h1, _⟩ := digit_byte_bounds hd0; omega)]
  simp only [DRes.bind]
  rw [get_integer_digits_hold d0 ds [] t1 tail hd0 hds (by simp) ht1 hws]
  simp only [DRes.bind]
  simp

/-- Splitting `takeWhile`/`dropWhile isDigit` at the first non-digit. -/
theorem takeWhile_digits_append (l1 : List Char) (h1 : ∀ c ∈ l1, c.isDigit = true)
    (x : Char) (hx : x.isDigit = false) (l2 : List Char) :
    ((l1 ++ x :: l2).takeWhile Char.isDigit = l1)
    ∧ ((l1 ++ x :: l2).dropWhile Char.isDigit = x :: l2) := by
  induction l1 with
  | nil => simp [List.takeWhile_cons, List.dropWhile_cons, hx]
  | cons c cs ih =>
    have hc : c.isDigit := h1 c (by simp)
    obtain ⟨ht, hd⟩ := ih (fun a ha => h1 a (by simp [ha]))
    simp [List.takeWhile_cons, List.dropWhile_cons, hc, ht, hd]

/-- Rust's float grammar rejects a digit run followed by a bare `e` (the
exponent requires at least one digit after the letter). -/
theorem floatTextAccepted_digits_e (ds : List Char) (hne : ds ≠ [])
    (h : ∀ c ∈ ds, c.isDigit = true) :
    floatTextAccepted (ds ++ ['e']) = false := by
  obtain ⟨c0, ds2, rfl⟩ : ∃ c0 ds2, ds = c0 :: ds2 := by
    cases ds with
    | nil => exact absurd rfl hne
    | cons a l => exact ⟨a, l, rfl⟩
  have hc0 : c0.isDigit = true := h c0 (by simp)
  have hp : c0 ≠ '+' := by intro he; rw [he] at hc0; exact absurd hc0 (by decide)
  have hm : c0 ≠ '-' := by intro he; rw [he] at hc0; exact absurd hc0 (by decide)
  obtain ⟨ht, hd⟩ := takeWhile_digits_append (c0 :: ds2) h 'e' (by decide) []
  simp only [floatTextAccepted, List.cons_append] at ht hd ⊢
  simp only [hp, hm]
  norm_num
  rw [List.takeWhile_cons, List.dropWhile_cons] at *
  simp only [hc0, if_true] at *
  rw [ht, hd]
  simp [floatExpTail]

/-- The routing of the self-describing number scan over every well-formed
number input: optional sign, integer digits, optional fraction, optional
unsigned exponent, then a terminator byte. -/
theorem pnr_route_structured :
    ∀ (sign : Bool) (ds : List Nat) (frac : Option (List Nat)) (ec : Nat)
        (ex : Option (List Nat)) (tb : Nat) (rest : List Nat),
      ds ≠ [] →
      (∀ b ∈ ds, isDigitByte b) →
      (∀ l, frac = some l → ∀ b ∈ l, isDigitByte b) →
      (ec = 101 ∨ ec = 69) →
      (∀ l, ex = some l → ∀ b ∈ l, isDigitByte b) →
      isDigitByte tb = false → byteIsWhitespace tb = false →
      tb < 256 → tb ≠ 46 → tb ≠ 101 → tb ≠ 69 →
      Deserializer.parse_number_route
          ⟨(if sign then [45] else []) ++ ds
              ++ (frac.elim [] (fun l => 46 :: l))
              ++ (ex.elim [] (fun l => ec :: l))
              ++ tb :: rest,
            none⟩
        = .ok
            (if frac.isSome || ex.isSome then
              .f64Route (String.mk
                (((if sign then [45] else []) ++ ds ++ frac.elim [] (fun l => 46 :: l)
                    ++ ex.elim [] (fun l => ec :: l)).map Char.ofNat))
            else if sign then
              .i64Route (String.mk
                (((if sign then [45] else []) ++ ds).map Char.ofNat))
            else
              .u64Route (String.mk (ds.map Char.ofNat)))
            ⟨rest, some tb⟩ := by
  intro sign ds frac ec ex tb rest hne hds hfrac hec hex htb hws htb256 h46 h101 h69
  obtain ⟨d0, ds2, rfl⟩ : ∃ d0 ds2, ds = d0 :: ds2 := by
    cases ds with
    | nil => exact absurd rfl hne
    | cons a l => exact ⟨a, l, rfl⟩
  have hd0 : isDigitByte d0 := hds d0 (by simp)
  have hds2 : ∀ b ∈ ds2, isDigitByte b := fun b hb => hds b (by simp [hb])
  have htbD : tb < 0xD800 := by omega
  have hecD : isDigitByte ec = false := by rcases hec with h | h <;> subst h <;> rfl
  have hecW : byteIsWhitespace ec = false := by rcases hec with h | h <;> subst h <;> rfl
  have hec46 : ec ≠ 46 := by rcases hec with h | h <;> omega
  rcases frac with _ | f <;> rcases ex with _ | x
  · -- no fraction, no exponent
    cases sign
    · simp only [Option.elim, Bool.false_eq_true, if_false, if_true, Option.isSome_none, Option.isSome_some, Bool.or_self, Bool.or_true, Bool.true_or, Bool.or_false, Bool.false_or, List.cons_append, List.append_assoc, List.nil_append, List.append_nil, List.singleton_append]
      rw [pnr_open_nosign d0 ds2 tb rest hd0 hds2 htb hws,
        pn_frac_none _ _ _ _ h46, pn_exp_none _ _ _ _ _ htbD h101 h69]
      simp
    · simp only [Option.elim, Bool.false_eq_true, if_false, if_true, Option.isSome_none, Option.isSome_some, Bool.or_self, Bool.or_true, Bool.true_or, Bool.or_false, Bool.false_or, List.cons_append, List.append_assoc, List.nil_append, List.append_nil, List.singleton_append]
      have hopen := pnr_open_sign (d0 :: ds2) tb rest hds htb hws
      simp only [List.cons_append] at hopen
      rw [hopen, pn_frac_none _ _ _ _ h46, pn_exp_none _ _ _ _ _ htbD h101 h69]
      simp
  · -- exponent only
    have hx : ∀ b ∈ x, isDigitByte b := hex x rfl
    cases sign
    · simp only [Option.elim, Bool.false_eq_true, if_false, if_true, Option.isSome_none, Option.isSome_some, Bool.or_self, Bool.or_true, Bool.true_or, Bool.or_false, Bool.false_or, List.cons_append, List.append_assoc, List.nil_append, List.append_nil, List.singleton_append]
      rw [pnr_open_nosign d0 ds2 ec (x ++ tb :: rest) hd0 hds2 hecD hecW,
        pn_frac_none _ _ _ _ hec46, pn_exp_some _ _ _ _ _ _ _ hec hx htb hws]
      simp [string_mk_append]
    · simp only [Option.elim, Bool.false_eq_true, if_false, if_true, Option.isSome_none, Option.isSome_some, Bool.or_self, Bool.or_true, Bool.true_or, Bool.or_false, Bool.false_or, List.cons_append, List.append_assoc, List.nil_append, List.append_nil, List.singleton_append]
      have hopen := pnr_open_sign (d0 :: ds2) ec (x ++ tb :: rest) hds hecD hecW
      simp only [List.cons_append] at hopen
      rw [hopen, pn_frac_none _ _ _ _ hec46, pn_exp_some _ _ _ _ _ _ _ hec hx htb hws]
      simp [string_mk_append]
  · -- fraction only
    have hf : ∀ b ∈ f, isDigitByte b := hfrac f rfl
    cases sign
    · simp only [Option.elim, Bool.false_eq_true, if_false, if_true, Option.isSome_none, Option.isSome_some, Bool.or_self, Bool.or_true, Bool.true_or, Bool.or_false, Bool.false_or, List.cons_append, List.append_assoc, List.nil_append, List.append_nil, List.singleton_append]
      rw [pnr_open_nosign d0 ds2 46 (f ++ tb :: rest) hd0 hds2 (by rfl) (by rfl),
        pn_frac_some _ _ _ _ _ hf htb hws, pn_exp_none _ _ _ _ _ htbD h101 h69]
      simp [string_mk_append]
    · simp only [Option.elim, Bool.false_eq_true, if_false, if_true, Option.isSome_none, Option.isSome_some, Bool.or_self, Bool.or_true, Bool.true_or, Bool.or_false, Bool.false_or, List.cons_append, List.append_assoc, List.nil_append, List.append_nil, List.singleton_append]
      have hopen := pnr_open_sign (d0 :: ds2) 46 (f ++ tb :: rest) hds (by rfl) (by rfl)
      simp only [List.cons_append] at hopen
      rw [hopen, pn_frac_some _ _ _ _ _ hf htb hws, pn_exp_none _ _ _ _ _ htbD h101 h69]
      simp [string_mk_append]
  · -- fraction and exponent
    have hf : ∀ b ∈ f, isDigitByte b := hfrac f rfl
    have hx : ∀ b ∈ x, isDigitByte b := hex x rfl
    cases sign
    · simp only [Option.elim, Bool.false_eq_true, if_false, if_true, Option.isSome_none, Option.isSome_some, Bool.or_self, Bool.or_true, Bool.true_or, Bool.or_false, Bool.false_or, List.cons_append, List.append_assoc, List.nil_append, List.append_nil, List.singleton_append]
      rw [pnr_open_nosign d0 ds2 46 (f ++ ec :: (x ++ tb :: rest)) hd0 hds2 (by rfl) (by rfl),
        pn_frac_some _ _ _ _ _ hf hecD hecW, pn_exp_some _ _ _ _ _ _ _ hec hx htb hws]
      simp [string_mk_append]
    · simp only [Option.elim, Bool.false_eq_true, if_false, if_true, Option.isSome_none, Option.isSome_some, Bool.or_self, Bool.or_true, Bool.true_or, Bool.or_false, Bool.false_or, List.cons_append, List.append_assoc, List.nil_append, List.append_nil, List.singleton_append]
      have hopen := pnr_open_sign (d0 :: ds2) 46 (f ++ ec :: (x ++ tb :: rest)) hds (by rfl) (by rfl)
      simp only [List.cons_append] at hopen
      rw [hopen, pn_frac_some _ _ _ _ _ hf hecD hecW, pn_exp_some _ _ _ _ _ _ _ hec hx htb hws]
      simp [string_mk_append]

/-- On every input of the form digits `e` `-` digits, the scan stops at the
`-`, collects only the digits and the `e`, routes to the float parse — and
the collected text is rejected by Rust's float grammar, so the call cannot
succeed as a signed-exponent float. -/
theorem pnr_exponent_sign :
    ∀ (ds1 ds2 : List Nat),
      ds1 ≠ [] → (∀ b ∈ ds1, isDigitByte b) →
      Deserializer.parse_number_route ⟨ds1 ++ 101 :: 45 :: ds2, none⟩
          = .ok (.f64Route (String.mk (ds1.map Char.ofNat ++ ['e']))) ⟨ds2, some 45⟩
        ∧ floatTextAccepted (ds1.map Char.ofNat ++ ['e']) = false := by
  intro ds1 ds2 hne hds
  obtain ⟨d0, ds1t, rfl⟩ : ∃ d0 ds1t, ds1 = d0 :: ds1t := by
    cases ds1 with
    | nil => exact absurd rfl hne
    | cons a l => exact ⟨a, l, rfl⟩
  have hd0 : isDigitByte d0 := hds d0 (by simp)
  have hds1t : ∀ b ∈ ds1t, isDigitByte b := fun b hb => hds b (by simp [hb])
  constructor
  · have hopen := pnr_open_nosign d0 ds1t 101 (45 :: ds2) hd0 hds1t (by rfl) (by rfl)
    have hexp := pn_exp_some (String.mk ((d0 :: ds1t).map Char.ofNat)) false false 101 [] ds2 45
      (Or.inl rfl) (by simp) (by rfl) (by rfl)
    simp only [List.nil_append] at hexp
    simp only [List.cons_append]
    rw [hopen, pn_frac_none _ _ _ _ (by omega), hexp]
    rw [string_mk_append]
    rfl
  · refine floatTextAccepted_digits_e _ (by simp) ?_
    intro c hc
    simp only [List.map_cons, List.mem_cons, List.mem_map] at hc
    rcases hc with rfl | ⟨b, hb, rfl⟩
    · exact char_isDigit_of_digitByte hd0
    · exact char_isDigit_of_digitByte (hds1t b hb)


/-- C7: the self-describing number classification: text with no `.` or
exponent routes to the 64-bit signed-integer parse when a leading sign was
seen and to the unsigned parse otherwise, and to the 64-bit float parse when
a `.` or `e`/`E` was seen; and the exponent scan accepts no sign after the
letter, so inputs of the form digits `e` `-` digits never succeed as a
signed-exponent float. -/
theorem c7_number_classification :
    (∀ (sign : Bool) (ds : List Nat) (frac : Option (List Nat)) (ec : Nat)
        (ex : Option (List Nat)) (tb : Nat) (rest : List Nat),
      ds ≠ [] →
      (∀ b ∈ ds, isDigitByte b) →
      (∀ l, frac = some l → ∀ b ∈ l, isDigitByte b) →
      (ec = 101 ∨ ec = 69) →
      (∀ l, ex = some l → ∀ b ∈ l, isDigitByte b) →
      isDigitByte tb = false → byteIsWhitespace tb = false →
      tb < 256 → tb ≠ 46 → tb ≠ 101 → tb ≠ 69 →
      Deserializer.parse_number_route
          ⟨(if sign then [45] else []) ++ ds
              ++ (frac.elim [] (fun l => 46 :: l))
              ++ (ex.elim [] (fun l => ec :: l))
              ++ tb :: rest,
            none⟩
        = .ok
            (if frac.isSome || ex.isSome then
              .f64Route (String.mk
                (((if sign then [45] else []) ++ ds ++ frac.elim [] (fun l => 46 :: l)
                    ++ ex.elim [] (fun l => ec :: l)).map Char.ofNat))
            else if sign then
              .i64Route (String.mk
                (((if sign then [45] else []) ++ ds).map Char.ofNat))
            else
              .u64Route (String.mk (ds.map Char.ofNat)))
            ⟨rest, some tb⟩)
    ∧ (∀ (ds1 ds2 : List Nat),
      ds1 ≠ [] → (∀ b ∈ ds1, isDigitByte b) →
      Deserializer.parse_number_route ⟨ds1 ++ 101 :: 45 :: ds2, none⟩
          = .ok (.f64Route (String.mk (ds1.map Char.ofNat ++ ['e']))) ⟨ds2, some 45⟩
        ∧ floatTextAccepted (ds1.map Char.ofNat ++ ['e']) = false) :=
  ⟨pnr_route_structured, pnr_exponent_sign⟩

/-- C7 witness: the classification applied at the concrete inputs `1,`
(unsigned), `-1,` (signed), and `1e-5` (the flagged exponent-sign case). -/
theorem c7_number_classification_witness :
    Deserializer.parse_number_route ⟨[49, 44], none⟩ = .ok (.u64Route "1") ⟨[], some 44⟩
    ∧ Deserializer.parse_number_route ⟨[45, 49, 44], none⟩
        = .ok (.i64Route "-1") ⟨[], some 44⟩
    ∧ (Deserializer.parse_number_route ⟨[49, 101, 45, 53], none⟩
          = .ok (.f64Route "1e") ⟨[53], some 45⟩
        ∧ floatTextAccepted "1e".data = false) := by
  refine ⟨?_, ?_, ?_⟩
  · have h := c7_number_classification.1 false [49] none 101 none 44 []
      (by decide) (by decide) (fun l hl => nomatch hl) (Or.inl rfl) (fun l hl => nomatch hl)
      (by decide) (by decide) (by decide) (by decide) (by decide) (by decide)
    simpa using h
  · have h := c7_number_classification.1 true [49] none 101 none 44 []
      (by decide) (by decide) (fun l hl => nomatch hl) (Or.inl rfl) (fun l hl => nomatch hl)
      (by decide) (by decide) (by decide) (by decide) (by decide) (by decide)
    simpa using h
  · have h := c7_number_classification.2 [49] [53] (by decide) (by decide)
    simpa using h

end SerdeJsonExercise
